import Mathlib

/-!
Shallow embedding of `rancher-upgrade.go` / `errors.go` (package main of the
rancher-upgrade tool).  The remote Rancher API is modelled as a time-indexed
oracle (`Env`): every remote call consumes one tick of a call counter, so the
answers the remote system gives may change over time (which is what the
finalize polling loop depends on).  Every remote-visible step of the program
is also recorded in an event trace.
-/

namespace RancherUpgrade

/-- The part of a Rancher service representation the program reads:
`s.Resource.Actions` (only the key set is inspected, via `_, ok :=
s.Resource.Actions[action]`). -/
structure ServiceRep where
  actions : List String
deriving DecidableEq

/-- Time-indexed oracle for the process environment.
`serviceMap` is the package-level `SERVICEMAP` (a Go `map[string]string`:
lookup of an absent key yields the zero value `""`).
`clientOk t` says whether the `getNewClient` call made at tick `t` succeeds;
`byId t id` is the answer of `client.Service.ById(id)` at tick `t`
(`none` = error); `upgradeOk t` / `finishOk t` say whether
`client.Service.ActionUpgrade` / `client.Service.ActionFinishupgrade`
invoked at tick `t` succeed. -/
structure Env where
  serviceMap : String → String
  clientOk : Nat → Bool
  byId : Nat → String → Option ServiceRep
  upgradeOk : Nat → Bool
  finishOk : Nat → Bool

/-- The error values of `errors.go`, plus `clientError` standing for an
opaque error produced by the Rancher client library (the `err` values the
program only wraps or logs). -/
inductive GoError where
  | actionAvailableError (action service : String)
  | upgradeError (action service : String) (cause : GoError)
  | clientError (t : Nat)
deriving DecidableEq

/-- Remote-visible events of a run: an `actionAvailable` gate check (with its
outcome), the 1-second sleep of the polling loop, the
`client.Service.ActionUpgrade` invocation (with the payload fields the
program sets: `InServiceStrategy.StartFirst` and
`InServiceStrategy.LaunchConfig.ImageUuid`), and the
`client.Service.ActionFinishupgrade` invocation. -/
inductive Event where
  | check (action service : String) (available : Bool)
  | sleepSec (n : Nat)
  | invokeBegin (service : String) (startFirst : Bool) (imageUuid : String)
  | invokeFinish (service : String)
deriving DecidableEq

abbrev Trace := List Event

/-- Function `getNewClient` (rancher-upgrade.go:146-152): builds a Rancher client from
the flag configuration; returns the error unchanged on failure.  Modelled as
consuming one tick; it succeeds iff `env.clientOk` holds at that tick. -/
def getNewClient (env : Env) (t : Nat) : Option GoError × Nat :=
  if env.clientOk t then (none, t + 1) else (some (.clientError t), t + 1)

/-- Function `actionAvailable` (rancher-upgrade.go:71-91): gets a client (a connection
failure means "unavailable"), treats `SERVICEMAP[service] == ""` (absent or
empty identifier) as "unavailable", looks the service up by identifier, and
finally reports whether `action` is a key of the service's action set.
Every failure path returns `&actionAvailableError{action, service}`. -/
def actionAvailable (env : Env) (action service : String) (t : Nat) :
    Option GoError × Nat :=
  match getNewClient env t with
  | (some _, t1) => (some (.actionAvailableError action service), t1)
  | (none, t1) =>
    if env.serviceMap service = "" then
      (some (.actionAvailableError action service), t1)
    else
      match env.byId t1 (env.serviceMap service) with
      | none => (some (.actionAvailableError action service), t1 + 1)
      | some s =>
        if action ∈ s.actions then (none, t1 + 1)
        else (some (.actionAvailableError action service), t1 + 1)

/-- Result of `doUpgrade` / `doFinishUpgrade`: the returned `error` value,
the call-counter afterwards, and the events emitted. -/
structure CallRes where
  err : Option GoError
  time : Nat
  trace : Trace
deriving DecidableEq

/-- Function `doUpgrade` (rancher-upgrade.go:116-144): re-checks the gate (returning a
fresh `actionAvailableError` on failure), gets a client, re-checks
`SERVICEMAP` (the source writes `&actionAvailableError{action, serviceName}`
here; in context the action is "upgrade"), fetches the service, sets
`StartFirst = true` and `ImageUuid = "docker:" + image` on the upgrade
payload, and invokes `client.Service.ActionUpgrade`. -/
def doUpgrade (env : Env) (serviceName image : String) (t : Nat) : CallRes :=
  match actionAvailable env "upgrade" serviceName t with
  | (some _, t1) =>
      ⟨some (.actionAvailableError "upgrade" serviceName), t1,
        [.check "upgrade" serviceName false]⟩
  | (none, t1) =>
    match getNewClient env t1 with
    | (some e, t2) =>
        ⟨some (.upgradeError "getNewClient" serviceName e), t2,
          [.check "upgrade" serviceName true]⟩
    | (none, t2) =>
      if env.serviceMap serviceName = "" then
        ⟨some (.actionAvailableError "upgrade" serviceName), t2,
          [.check "upgrade" serviceName true]⟩
      else
        match env.byId t2 (env.serviceMap serviceName) with
        | none =>
            ⟨some (.upgradeError "client.Service.ById" serviceName
                (.clientError t2)), t2 + 1,
              [.check "upgrade" serviceName true]⟩
        | some _ =>
          if env.upgradeOk (t2 + 1) then
            ⟨none, t2 + 2,
              [.check "upgrade" serviceName true,
               .invokeBegin serviceName true ("docker:" ++ image)]⟩
          else
            ⟨some (.upgradeError "client.Service.ActionUpgrade" serviceName
                (.clientError (t2 + 1))), t2 + 2,
              [.check "upgrade" serviceName true,
               .invokeBegin serviceName true ("docker:" ++ image)]⟩

/-- Function `doFinishUpgrade` (rancher-upgrade.go:93-114): re-checks the gate and
wraps its error as `&upgradeError{"finishupgrade", service, err}`, gets a
client (same wrapping on failure), re-checks `SERVICEMAP` (the source writes
`&actionAvailableError{action, service}` here; in context the action is
"finishupgrade"), fetches the service, and invokes
`client.Service.ActionFinishupgrade`. -/
def doFinishUpgrade (env : Env) (service : String) (t : Nat) : CallRes :=
  match actionAvailable env "finishupgrade" service t with
  | (some e, t1) =>
      ⟨some (.upgradeError "finishupgrade" service e), t1,
        [.check "finishupgrade" service false]⟩
  | (none, t1) =>
    match getNewClient env t1 with
    | (some e, t2) =>
        ⟨some (.upgradeError "finishupgrade" service e), t2,
          [.check "finishupgrade" service true]⟩
    | (none, t2) =>
      if env.serviceMap service = "" then
        ⟨some (.actionAvailableError "finishupgrade" service), t2,
          [.check "finishupgrade" service true]⟩
      else
        match env.byId t2 (env.serviceMap service) with
        | none =>
            ⟨some (.upgradeError "finishupgrade" service (.clientError t2)),
              t2 + 1, [.check "finishupgrade" service true]⟩
        | some _ =>
          if env.finishOk (t2 + 1) then
            ⟨none, t2 + 2,
              [.check "finishupgrade" service true, .invokeFinish service]⟩
          else
            ⟨some (.upgradeError "finishupgrade" service
                (.clientError (t2 + 1))), t2 + 2,
              [.check "finishupgrade" service true, .invokeFinish service]⟩

/-- Result of the finalize polling loop: `exit = some t` when the loop left
because the gate reported available (the call counter is then `t`);
`exit = none` when the fuel bound was exhausted while the gate still
reported unavailable (the Go loop would simply keep spinning). -/
structure PollRes where
  exit : Option Nat
  trace : Trace
deriving DecidableEq

/-- The finalize-availability polling loop of `upgradeServiceImage`
(rancher-upgrade.go:64-67):
`for err := actionAvailable(...); err != nil; err = actionAvailable(...) {
time.Sleep(1 * time.Second) }`.  The Go loop is unbounded; `fuel` bounds the
number of sleeps the embedding is willing to unfold. -/
def pollFinish (env : Env) (service : String) : Nat → Nat → PollRes
  | 0, t =>
    match actionAvailable env "finishupgrade" service t with
    | (none, t1) => ⟨some t1, [.check "finishupgrade" service true]⟩
    | (some _, _) => ⟨none, [.check "finishupgrade" service false]⟩
  | fuel + 1, t =>
    match actionAvailable env "finishupgrade" service t with
    | (none, t1) => ⟨some t1, [.check "finishupgrade" service true]⟩
    | (some _, t1) =>
      match pollFinish env service fuel t1 with
      | ⟨r, tr⟩ =>
        ⟨r, .check "finishupgrade" service false :: .sleepSec 1 :: tr⟩

/-- Terminal state of one service's upgrade controller (§4.3 of the spec):
`aborted e` when `upgradeServiceImage` returned after a failure `e`,
`finished` when `doFinishUpgrade` succeeded, `outOfFuel` when the embedding's
fuel ran out inside the (unbounded) polling loop. -/
inductive Outcome where
  | aborted (e : GoError)
  | finished
  | outOfFuel
deriving DecidableEq

/-- Result of one `upgradeServiceImage` run. -/
structure RunRes where
  outcome : Outcome
  time : Nat
  trace : Trace
deriving DecidableEq

/-- Function `upgradeServiceImage` (rancher-upgrade.go:54-69): gate check for
"upgrade" (return on failure), `doUpgrade` (return on failure), the
finalize polling loop, then `doFinishUpgrade`.  The Go function returns
nothing; the `Outcome` records the terminal controller state, with a
`doFinishUpgrade` error (which the source discards) recorded as `aborted`. -/
def upgradeServiceImage (env : Env) (serviceName image : String)
    (fuel t : Nat) : RunRes :=
  match actionAvailable env "upgrade" serviceName t with
  | (some e, t1) => ⟨.aborted e, t1, [.check "upgrade" serviceName false]⟩
  | (none, t1) =>
    match doUpgrade env serviceName image t1 with
    | ⟨some e, t2, ev1⟩ =>
        ⟨.aborted e, t2, .check "upgrade" serviceName true :: ev1⟩
    | ⟨none, t2, ev1⟩ =>
      match pollFinish env serviceName fuel t2 with
      | ⟨none, ev2⟩ =>
          ⟨.outOfFuel, t2, .check "upgrade" serviceName true :: ev1 ++ ev2⟩
      | ⟨some t3, ev2⟩ =>
        match doFinishUpgrade env serviceName t3 with
        | ⟨none, t4, ev3⟩ =>
            ⟨.finished, t4,
              .check "upgrade" serviceName true :: ev1 ++ ev2 ++ ev3⟩
        | ⟨some e, t4, ev3⟩ =>
            ⟨.aborted e, t4,
              .check "upgrade" serviceName true :: ev1 ++ ev2 ++ ev3⟩

/-- Result of one worker: final call counter, the terminal outcome of every
job it pulled (in order), and the concatenated trace. -/
structure WorkerRes where
  time : Nat
  outcomes : List Outcome
  trace : Trace
deriving DecidableEq

/-- Function `upgradeServicesConcurrent` (rancher-upgrade.go:29-37): one worker's
loop `for service := range serviceChan { imageUuid := prefix + service +
tag; upgradeServiceImage(service, imageUuid) }`, applied to the sequence of
jobs this worker pulls from the channel. -/
def upgradeServicesConcurrent (env : Env) (pre tag : String) (fuel : Nat) :
    List String → Nat → WorkerRes
  | [], t => ⟨t, [], []⟩
  | service :: rest, t =>
    match upgradeServiceImage env service (pre ++ service ++ tag) fuel t with
    | ⟨o, t1, ev⟩ =>
      match upgradeServicesConcurrent env pre tag fuel rest t1 with
      | ⟨t2, os, ev2⟩ => ⟨t2, o :: os, ev ++ ev2⟩

/-- The worker that pulls the `i`-th enqueued job, under an arbitrary
interleaving `sched`; the `% par` makes every function a valid schedule
over `par` workers. -/
def assignW (par : Nat) (sched : Nat → Nat) (i : Nat) : Nat := sched i % par

/-- The queue positions worker `w` pulls, in queue order. -/
def assignedIdx (nJobs par : Nat) (sched : Nat → Nat) (w : Nat) : List Nat :=
  (List.range nJobs).filter (fun i => assignW par sched i = w)

/-- The jobs worker `w` pulls from the closed channel, in order. -/
def workerJobs (services : List String) (par : Nat) (sched : Nat → Nat)
    (w : Nat) : List String :=
  (assignedIdx services.length par sched w).map (fun i => services.getD i "")

/-- Capacity of `serviceChan` (rancher-upgrade.go:40):
`make(chan string, cap(services))`; `SERVICES` is built by `strings.Split`,
which allocates exactly, so the slice capacity is the service count. -/
def serviceChanCap (services : List String) : Nat := services.length

/-- Function `upgradeServices` (rancher-upgrade.go:39-52): enqueue every service into
the channel, close it, start `PARALLELISM` workers, and wait for all of
them (`WG.Wait()`).  Under the schedule abstraction the dispatcher's value
is the completed result of each of the `par` workers; returning this list
models the join: the caller gets it only once every worker has exited. -/
def upgradeServices (env : Env) (pre tag : String) (fuel : Nat)
    (services : List String) (par : Nat) (sched : Nat → Nat) :
    List WorkerRes :=
  (List.range par).map (fun w =>
    upgradeServicesConcurrent env pre tag fuel
      (workerJobs services par sched w) 0)

/-- Go's `strings.HasPrefix(s, p)`: `p` is a prefix of `s`. -/
def hasPrefixGo (s p : String) : Bool := p.data.isPrefixOf s.data

/-- Tag normalization in `init` (rancher-upgrade.go:163-165):
`if !strings.HasPrefix(tag, ":") { tag = ":" + tag }`. -/
def initTag (tag : String) : String :=
  if hasPrefixGo tag ":" then tag else ":" ++ tag

/-- Splitting a character sequence around every instance of a separator
character; the empty sequence yields one empty part, matching Go's
`strings.Split` (which returns `n+1` parts for `n` separator instances). -/
def splitChar (sep : Char) : List Char → List (List Char)
  | [] => [[]]
  | c :: rest =>
    match splitChar sep rest with
    | [] => [[]]
    | cur :: parts =>
      if c = sep then [] :: cur :: parts else (c :: cur) :: parts

/-- Go's `strings.Split(s, ",")` as used in `init`
(rancher-upgrade.go:162): `SERVICES = strings.Split(services, ",")`. -/
def goSplitComma (s : String) : List String :=
  (splitChar ',' s.data).map String.mk

/-- Modelled from the spec (§8): `normalizedTag` — the tag normalized to
always begin with a colon; already-colon-prefixed tags are unchanged. -/
def normalizedTag (tag : String) : String :=
  if hasPrefixGo tag ":" then tag else ":" ++ tag

/-- Modelled from the spec (§8): `buildImageReference(prefix, service, tag)
= prefix + service + normalizedTag`. -/
def buildImageReference (pre service tag : String) : String :=
  pre ++ service ++ normalizedTag tag

/-- The image concatenation a worker performs (rancher-upgrade.go:33):
`imageUuid := prefix + service + tag` (the tag here is the already
normalized `IMAGETAG`). -/
def workerImage (pre service tag : String) : String := pre ++ service ++ tag

/-- One entry of the startup listing (`serviceCollection.Data`): a service's
`Name` and `Id`. -/
structure ServiceEntry where
  name : String
  id : String
deriving DecidableEq

/-- Function `createServiceMap` (rancher-upgrade.go:175-191): index the full listing
by name into a Go map (`serviceMap[service.Name] = service.Id`).  A later
write to the same name overwrites the earlier one; lookup of a missing key
yields the zero value `""`. -/
def createServiceMap (listing : List ServiceEntry) : String → String :=
  listing.foldl (fun m e n => if n = e.name then e.id else m n) (fun _ => "")

/-- Count of sleep events in a trace. -/
def sleepCount (tr : Trace) : Nat :=
  tr.countP (fun e => match e with | .sleepSec _ => true | _ => false)

/-! ### Helper lemmas: the shape of the traces each function can emit -/

theorem doUpgrade_trace_cases (env : Env) (s img : String) (t : Nat) :
    (doUpgrade env s img t).trace = [.check "upgrade" s false] ∨
    (doUpgrade env s img t).trace = [.check "upgrade" s true] ∨
    (doUpgrade env s img t).trace =
      [.check "upgrade" s true, .invokeBegin s true ("docker:" ++ img)] := by
  unfold doUpgrade
  repeat' split
  all_goals simp

theorem doFinishUpgrade_trace_cases (env : Env) (s : String) (t : Nat) :
    (doFinishUpgrade env s t).trace = [.check "finishupgrade" s false] ∨
    (doFinishUpgrade env s t).trace = [.check "finishupgrade" s true] ∨
    (doFinishUpgrade env s t).trace =
      [.check "finishupgrade" s true, .invokeFinish s] := by
  unfold doFinishUpgrade
  repeat' split
  all_goals simp

theorem doUpgrade_events (env : Env) (s img : String) (t : Nat) :
    ∀ ev ∈ (doUpgrade env s img t).trace,
      (∃ b, ev = .check "upgrade" s b) ∨
        ev = .invokeBegin s true ("docker:" ++ img) := by
  intro ev hev
  rcases doUpgrade_trace_cases env s img t with h | h | h <;>
    rw [h] at hev <;> simp at hev
  · exact Or.inl ⟨false, hev⟩
  · exact Or.inl ⟨true, hev⟩
  · rcases hev with rfl | rfl
    · exact Or.inl ⟨true, rfl⟩
    · exact Or.inr rfl

theorem doFinishUpgrade_events (env : Env) (s : String) (t : Nat) :
    ∀ ev ∈ (doFinishUpgrade env s t).trace,
      (∃ b, ev = .check "finishupgrade" s b) ∨ ev = .invokeFinish s := by
  intro ev hev
  rcases doFinishUpgrade_trace_cases env s t with h | h | h <;>
    rw [h] at hev <;> simp at hev
  · exact Or.inl ⟨false, hev⟩
  · exact Or.inl ⟨true, hev⟩
  · rcases hev with rfl | rfl
    · exact Or.inl ⟨true, rfl⟩
    · exact Or.inr rfl

theorem pollFinish_events (env : Env) (s : String) (fuel : Nat) : ∀ t : Nat,
    ∀ ev ∈ (pollFinish env s fuel t).trace,
      (∃ b, ev = .check "finishupgrade" s b) ∨ ev = .sleepSec 1 := by
  induction fuel with
  | zero =>
    intro t
    cases hq : actionAvailable env "finishupgrade" s t with
    | mk g t1 =>
      cases g with
      | none =>
        simp only [pollFinish, hq]
        intro ev hev
        simp at hev
        exact Or.inl ⟨true, hev⟩
      | some e =>
        simp only [pollFinish, hq]
        intro ev hev
        simp at hev
        exact Or.inl ⟨false, hev⟩
  | succ fuel ih =>
    intro t
    cases hq : actionAvailable env "finishupgrade" s t with
    | mk g t1 =>
      cases g with
      | none =>
        simp only [pollFinish, hq]
        intro ev hev
        simp at hev
        exact Or.inl ⟨true, hev⟩
      | some e =>
        simp only [pollFinish, hq]
        cases hp : pollFinish env s fuel t1 with
        | mk r tr =>
          simp only [hp]
          intro ev hev
          simp at hev
          rcases hev with rfl | rfl | hev
          · exact Or.inl ⟨false, rfl⟩
          · exact Or.inr rfl
          · exact ih t1 ev (by rw [hp]; exact hev)

theorem upgradeServiceImage_events (env : Env) (s img : String)
    (fuel t : Nat) :
    ∀ ev ∈ (upgradeServiceImage env s img fuel t).trace,
      (∃ a b, ev = .check a s b) ∨ ev = .sleepSec 1 ∨
        ev = .invokeBegin s true ("docker:" ++ img) ∨
          ev = .invokeFinish s := by
  cases hq : actionAvailable env "upgrade" s t with
  | mk g t1 =>
    cases g with
    | some e =>
      simp only [upgradeServiceImage, hq]
      intro ev hev
      simp at hev
      subst hev
      exact Or.inl ⟨"upgrade", false, rfl⟩
    | none =>
      simp only [upgradeServiceImage, hq]
      cases hd : doUpgrade env s img t1 with
      | mk derr t2 ev1 =>
        cases derr with
        | some e =>
          simp only [hd]
          intro ev hev
          simp at hev
          rcases hev with rfl | hev
          · exact Or.inl ⟨"upgrade", true, rfl⟩
          · rcases doUpgrade_events env s img t1 ev (by rw [hd]; exact hev)
              with ⟨b, rfl⟩ | rfl
            · exact Or.inl ⟨"upgrade", b, rfl⟩
            · exact Or.inr (Or.inr (Or.inl rfl))
        | none =>
          simp only [hd]
          cases hp : pollFinish env s fuel t2 with
          | mk r ev2 =>
            cases r with
            | none =>
              simp only [hp]
              intro ev hev
              simp at hev
              rcases hev with rfl | hev | hev
              · exact Or.inl ⟨"upgrade", true, rfl⟩
              · rcases doUpgrade_events env s img t1 ev
                  (by rw [hd]; exact hev) with ⟨b, rfl⟩ | rfl
                · exact Or.inl ⟨"upgrade", b, rfl⟩
                · exact Or.inr (Or.inr (Or.inl rfl))
              · rcases pollFinish_events env s fuel t2 ev
                  (by rw [hp]; exact hev) with ⟨b, rfl⟩ | rfl
                · exact Or.inl ⟨"finishupgrade", b, rfl⟩
                · exact Or.inr (Or.inl rfl)
            | some t3 =>
              simp only [hp]
              cases hf : doFinishUpgrade env s t3 with
              | mk ferr t4 ev3 =>
                cases ferr with
                | none =>
                  simp only [hf]
                  intro ev hev
                  simp at hev
                  rcases hev with rfl | hev | hev | hev
                  · exact Or.inl ⟨"upgrade", true, rfl⟩
                  · rcases doUpgrade_events env s img t1 ev
                      (by rw [hd]; exact hev) with ⟨b, rfl⟩ | rfl
                    · exact Or.inl ⟨"upgrade", b, rfl⟩
                    · exact Or.inr (Or.inr (Or.inl rfl))
                  · rcases pollFinish_events env s fuel t2 ev
                      (by rw [hp]; exact hev) with ⟨b, rfl⟩ | rfl
                    · exact Or.inl ⟨"finishupgrade", b, rfl⟩
                    · exact Or.inr (Or.inl rfl)
                  · rcases doFinishUpgrade_events env s t3 ev
                      (by rw [hf]; exact hev) with ⟨b, rfl⟩ | rfl
                    · exact Or.inl ⟨"finishupgrade", b, rfl⟩
                    · exact Or.inr (Or.inr (Or.inr rfl))
                | some e =>
                  simp only [hf]
                  intro ev hev
                  simp at hev
                  rcases hev with rfl | hev | hev | hev
                  · exact Or.inl ⟨"upgrade", true, rfl⟩
                  · rcases doUpgrade_events env s img t1 ev
                      (by rw [hd]; exact hev) with ⟨b, rfl⟩ | rfl
                    · exact Or.inl ⟨"upgrade", b, rfl⟩
                    · exact Or.inr (Or.inr (Or.inl rfl))
                  · rcases pollFinish_events env s fuel t2 ev
                      (by rw [hp]; exact hev) with ⟨b, rfl⟩ | rfl
                    · exact Or.inl ⟨"finishupgrade", b, rfl⟩
                    · exact Or.inr (Or.inl rfl)
                  · rcases doFinishUpgrade_events env s t3 ev
                      (by rw [hf]; exact hev) with ⟨b, rfl⟩ | rfl
                    · exact Or.inl ⟨"finishupgrade", b, rfl⟩
                    · exact Or.inr (Or.inr (Or.inr rfl))

/-! ### Helper lemmas: unknown or empty-identifier services -/

theorem actionAvailable_of_empty (env : Env) (action service : String)
    (t : Nat) (h : env.serviceMap service = "") :
    actionAvailable env action service t =
      (some (.actionAvailableError action service), t + 1) := by
  unfold actionAvailable getNewClient
  cases hc : env.clientOk t <;> simp [hc, h]

theorem actionAvailable_none_ne_empty (env : Env) (action service : String)
    (t t1 : Nat) (h : actionAvailable env action service t = (none, t1)) :
    env.serviceMap service ≠ "" := by
  intro hc
  rw [actionAvailable_of_empty env action service t hc] at h
  simp at h

theorem upgradeServiceImage_of_empty (env : Env) (s img : String)
    (fuel t : Nat) (h : env.serviceMap s = "") :
    upgradeServiceImage env s img fuel t =
      ⟨.aborted (.actionAvailableError "upgrade" s), t + 1,
        [.check "upgrade" s false]⟩ := by
  simp only [upgradeServiceImage,
    actionAvailable_of_empty env "upgrade" s t h]

/-! ### Helper lemmas: the worker loop -/

theorem worker_outcomes_length (env : Env) (pre tag : String) (fuel : Nat) :
    ∀ (jobs : List String) (t : Nat),
      (upgradeServicesConcurrent env pre tag fuel jobs t).outcomes.length =
        jobs.length := by
  intro jobs
  induction jobs with
  | nil => intro t; rfl
  | cons s rest ih =>
    intro t
    simp only [upgradeServicesConcurrent]
    cases hr : upgradeServiceImage env s (pre ++ s ++ tag) fuel t with
    | mk o t1 ev =>
      cases hw : upgradeServicesConcurrent env pre tag fuel rest t1 with
      | mk t2 os ev2 =>
        have := ih t1
        rw [hw] at this
        simp at this
        simp [this]

theorem upgradeServiceImage_has_check (env : Env) (s img : String)
    (fuel t : Nat) :
    ∃ b, Event.check "upgrade" s b ∈
      (upgradeServiceImage env s img fuel t).trace := by
  cases hq : actionAvailable env "upgrade" s t with
  | mk g t1 =>
    cases g with
    | some e =>
      refine ⟨false, ?_⟩
      simp only [upgradeServiceImage, hq]
      simp
    | none =>
      refine ⟨true, ?_⟩
      simp only [upgradeServiceImage, hq]
      cases hd : doUpgrade env s img t1 with
      | mk derr t2 ev1 =>
        cases derr with
        | some e => simp [hd]
        | none =>
          simp only [hd]
          cases hp : pollFinish env s fuel t2 with
          | mk r ev2 =>
            cases r with
            | none => simp [hp]
            | some t3 =>
              simp only [hp]
              cases hf : doFinishUpgrade env s t3 with
              | mk ferr t4 ev3 =>
                cases ferr <;> simp [hf]

theorem worker_all_checked (env : Env) (pre tag : String) (fuel : Nat) :
    ∀ (jobs : List String) (t : Nat), ∀ r ∈ jobs,
      ∃ b, Event.check "upgrade" r b ∈
        (upgradeServicesConcurrent env pre tag fuel jobs t).trace := by
  intro jobs
  induction jobs with
  | nil => intro t r hr; cases hr
  | cons s rest ih =>
    intro t r hr
    simp only [upgradeServicesConcurrent]
    cases hrun : upgradeServiceImage env s (pre ++ s ++ tag) fuel t with
    | mk o t1 ev =>
      cases hw : upgradeServicesConcurrent env pre tag fuel rest t1 with
      | mk t2 os ev2 =>
        rcases List.mem_cons.mp hr with rfl | hr
        · obtain ⟨b, hb⟩ := upgradeServiceImage_has_check env r
            (pre ++ r ++ tag) fuel t
          rw [hrun] at hb
          exact ⟨b, List.mem_append.mpr (Or.inl hb)⟩
        · obtain ⟨b, hb⟩ := ih t1 r hr
          rw [hw] at hb
          exact ⟨b, List.mem_append.mpr (Or.inr hb)⟩

theorem worker_trace_from_jobs (env : Env) (pre tag : String) (fuel : Nat) :
    ∀ (jobs : List String) (t : Nat),
      ∀ ev ∈ (upgradeServicesConcurrent env pre tag fuel jobs t).trace,
        ∃ r ∈ jobs, ∃ t0,
          ev ∈ (upgradeServiceImage env r (pre ++ r ++ tag) fuel t0).trace := by
  intro jobs
  induction jobs with
  | nil => intro t ev hev; cases hev
  | cons s rest ih =>
    intro t ev hev
    simp only [upgradeServicesConcurrent] at hev
    rcases hrun : upgradeServiceImage env s (pre ++ s ++ tag) fuel t with
      ⟨o, t1, ev1⟩
    rw [hrun] at hev
    rcases hw : upgradeServicesConcurrent env pre tag fuel rest t1 with
      ⟨t2, os, ev2⟩
    rw [hw] at hev
    rcases List.mem_append.mp hev with hev | hev
    · exact ⟨s, List.mem_cons_self s rest, t, by rw [hrun]; exact hev⟩
    · obtain ⟨r, hr, t0, h0⟩ := ih t1 ev (by rw [hw]; exact hev)
      exact ⟨r, List.mem_cons_of_mem s hr, t0, h0⟩

/-! ### Concrete environments used by the witnesses -/

/-- A healthy remote system knowing one service `svcA` with identifier
`1s1` on which both actions are always available and both invocations
succeed. -/
def envA : Env :=
  { serviceMap := fun s => if s = "svcA" then "1s1" else ""
  , clientOk := fun _ => true
  , byId := fun _ i =>
      if i = "1s1" then some ⟨["upgrade", "finishupgrade"]⟩ else none
  , upgradeOk := fun _ => true
  , finishOk := fun _ => true }

/-- A remote system that can never be reached: every `getNewClient` call
fails, so every gate check reports unavailable. -/
def envDown : Env :=
  { serviceMap := fun _ => "1s1"
  , clientOk := fun _ => false
  , byId := fun _ _ => none
  , upgradeOk := fun _ => true
  , finishOk := fun _ => true }

/-- A directory with no services: every lookup yields the zero value. -/
def envNoMap : Env :=
  { serviceMap := fun _ => ""
  , clientOk := fun _ => true
  , byId := fun _ _ => none
  , upgradeOk := fun _ => true
  , finishOk := fun _ => true }

/-- Like `envA`, but the begin-upgrade invocation always fails. -/
def envBeginFail : Env :=
  { serviceMap := fun s => if s = "svcA" then "1s1" else ""
  , clientOk := fun _ => true
  , byId := fun _ i =>
      if i = "1s1" then some ⟨["upgrade", "finishupgrade"]⟩ else none
  , upgradeOk := fun _ => false
  , finishOk := fun _ => true }

/-- Like `envA`, but the finish-upgrade invocation always fails. -/
def envFinFail : Env :=
  { serviceMap := fun s => if s = "svcA" then "1s1" else ""
  , clientOk := fun _ => true
  , byId := fun _ i =>
      if i = "1s1" then some ⟨["upgrade", "finishupgrade"]⟩ else none
  , upgradeOk := fun _ => true
  , finishOk := fun _ => false }

/-! ### The claims -/

/-- C7: image reference construction is a pure function: the worker's
concatenation (rancher-upgrade.go:33) of the prefix, the service name, and
the tag normalized by `init` (rancher-upgrade.go:163-165) equals
`buildImageReference(prefix, service, tag) = prefix + service +
normalizedTag(tag)`; `normalizedTag("latest") = ":latest"`;
`normalizedTag(":v2") = ":v2"`; and `normalizedTag` is idempotent. -/
theorem c7_image_reference_pure :
    (∀ pre service tag : String,
      workerImage pre service (initTag tag) =
        buildImageReference pre service tag) ∧
    normalizedTag "latest" = ":latest" ∧
    normalizedTag ":v2" = ":v2" ∧
    (∀ tag : String,
      normalizedTag (normalizedTag tag) = normalizedTag tag) := by
  refine ⟨fun pre service tag => rfl, by decide, by decide, fun tag => ?_⟩
  unfold normalizedTag
  cases hp : hasPrefixGo tag ":" with
  | true => simp [hp]
  | false =>
    simp only [hp, Bool.false_eq_true, if_false]
    have hcolon : hasPrefixGo (":" ++ tag) ":" = true := by
      unfold hasPrefixGo
      rw [String.data_append]
      show List.isPrefixOf [':'] (':' :: tag.data) = true
      simp [List.isPrefixOf]
    simp [hcolon]

/-- C8: `createServiceMap` maps each name to the identifier of the last
listing entry bearing that name — later entries silently overwrite earlier
ones (last-wins), and a name absent from the listing maps to the zero
value `""`. -/
theorem c8_createServiceMap_last_wins (listing : List ServiceEntry)
    (name : String) :
    createServiceMap listing name =
      ((listing.reverse.find? (fun e => e.name == name)).map
        ServiceEntry.id).getD "" := by
  induction listing using List.reverseRecOn with
  | nil => rfl
  | append_singleton l e ih =>
    unfold createServiceMap at ih ⊢
    rw [List.foldl_append]
    simp only [List.foldl_cons, List.foldl_nil]
    rw [List.reverse_append]
    simp only [List.reverse_singleton, List.singleton_append, List.find?]
    by_cases hn : name = e.name
    · simp [hn]
    · have : (e.name == name) = false := by
        simp [beq_iff_eq]
        exact fun hc => hn hc.symm
      simp [hn, this]
      exact ih

/-- C9: when the comma-separated services flag is the empty string, the
split yields the single-element list `[""]`, so the run enqueues exactly
one job whose service name is `""` (not zero jobs); that job aborts as
action-unavailable whenever `""` is not mapped to a non-empty identifier
in the directory. -/
theorem c9_empty_flag_single_job :
    goSplitComma "" = [""] ∧
    (goSplitComma "").length = 1 ∧
    (∀ (env : Env) (pre tag : String) (fuel t : Nat),
      (upgradeServicesConcurrent env pre tag fuel
        (goSplitComma "") t).outcomes.length = 1) ∧
    (∀ (env : Env) (img : String) (fuel t : Nat),
      env.serviceMap "" = "" →
        (upgradeServiceImage env "" img fuel t).outcome =
          .aborted (.actionAvailableError "upgrade" "")) := by
  refine ⟨by decide, by decide, fun env pre tag fuel t => ?_,
    fun env img fuel t h => ?_⟩
  · rw [worker_outcomes_length]
    decide
  · rw [upgradeServiceImage_of_empty env "" img fuel t h]

/-- C9 witness: the job for `""` aborts as action-unavailable in a
directory that does not map `""`. -/
theorem c9_empty_flag_single_job_witness :
    (upgradeServiceImage envNoMap "" "img" 2 0).outcome =
      .aborted (.actionAvailableError "upgrade" "") :=
  c9_empty_flag_single_job.2.2.2 envNoMap "img" 2 0 (by decide)

/-- C10: a directory entry whose resolved identifier is the empty string is
treated identically to an absent entry: the unknown-service test is
`SERVICEMAP[service] == ""` (the zero value for a missing key), so such a
service is always reported as action-unavailable and can never be
upgraded. -/
theorem c10_empty_id_never_upgradable :
    (∀ (es : List ServiceEntry) (n : String),
      createServiceMap (es ++ [⟨n, ""⟩]) n = createServiceMap [] n) ∧
    (∀ (env : Env) (action service : String) (t : Nat),
      env.serviceMap service = "" →
        actionAvailable env action service t =
          (some (.actionAvailableError action service), t + 1)) ∧
    (∀ (env : Env) (s img : String) (fuel t : Nat),
      env.serviceMap s = "" →
        (upgradeServiceImage env s img fuel t).outcome =
            .aborted (.actionAvailableError "upgrade" s) ∧
          (∀ sf u, Event.invokeBegin s sf u ∉
            (upgradeServiceImage env s img fuel t).trace) ∧
          Event.invokeFinish s ∉
            (upgradeServiceImage env s img fuel t).trace) := by
  refine ⟨fun es n => ?_, fun env action service t h =>
    actionAvailable_of_empty env action service t h,
    fun env s img fuel t h => ?_⟩
  · unfold createServiceMap
    rw [List.foldl_append]
    simp
  · rw [upgradeServiceImage_of_empty env s img fuel t h]
    refine ⟨rfl, fun sf u => ?_, ?_⟩ <;> simp

/-- C10 witness: with `svcB` listed with an empty identifier, lookup equals
the missing-key zero value, the gate reports unavailable, and the
controller aborts with no invocations. -/
theorem c10_empty_id_never_upgradable_witness :
    createServiceMap ([⟨"svcA", "1s1"⟩] ++ [⟨"svcB", ""⟩]) "svcB" =
        createServiceMap [] "svcB" ∧
    actionAvailable envNoMap "upgrade" "svcB" 0 =
        (some (.actionAvailableError "upgrade" "svcB"), 1) ∧
    (upgradeServiceImage envNoMap "svcB" "img" 2 0).outcome =
      .aborted (.actionAvailableError "upgrade" "svcB") :=
  ⟨c10_empty_id_never_upgradable.1 [⟨"svcA", "1s1"⟩] "svcB",
   c10_empty_id_never_upgradable.2.1 envNoMap "upgrade" "svcB" 0 (by decide),
   (c10_empty_id_never_upgradable.2.2 envNoMap "svcB" "img" 2 0 (by decide)).1⟩

/-- C1: if begin-upgrade (`doUpgrade`) returns an error, finish-upgrade is
never invoked for that service: `upgradeServiceImage` returns immediately
with that error, before ever entering the finalize-availability polling
loop — its trace holds no finish invocation, no "finishupgrade" gate
check, and no sleep. -/
theorem c1_begin_failure_skips_finish (env : Env) (service image : String)
    (fuel t t1 : Nat) (e : GoError)
    (h1 : actionAvailable env "upgrade" service t = (none, t1))
    (h2 : (doUpgrade env service image t1).err = some e) :
    (upgradeServiceImage env service image fuel t).outcome = .aborted e ∧
    Event.invokeFinish service ∉
      (upgradeServiceImage env service image fuel t).trace ∧
    (∀ b, Event.check "finishupgrade" service b ∉
      (upgradeServiceImage env service image fuel t).trace) ∧
    (∀ n, Event.sleepSec n ∉
      (upgradeServiceImage env service image fuel t).trace) := by
  rcases hd : doUpgrade env service image t1 with ⟨derr, t2, ev1⟩
  rw [hd] at h2
  simp at h2
  subst h2
  have hdev : ∀ ev ∈ ev1,
      (∃ b, ev = Event.check "upgrade" service b) ∨
        ev = .invokeBegin service true ("docker:" ++ image) := by
    intro ev hev
    exact doUpgrade_events env service image t1 ev (by rw [hd]; exact hev)
  simp only [upgradeServiceImage, h1, hd]
  refine ⟨by trivial, ?_, fun b => ?_, fun n => ?_⟩
  · intro hc
    rcases List.mem_cons.mp hc with h | h
    · exact Event.noConfusion h
    · rcases hdev _ h with ⟨b, hb⟩ | hb
      · exact Event.noConfusion hb
      · exact Event.noConfusion hb
  · intro hc
    rcases List.mem_cons.mp hc with h | h
    · injection h with ha hs hb
      exact absurd ha (by decide)
    · rcases hdev _ h with ⟨b2, hb⟩ | hb
      · injection hb with ha hs hb2
        exact absurd ha (by decide)
      · exact Event.noConfusion hb
  · intro hc
    rcases List.mem_cons.mp hc with h | h
    · exact Event.noConfusion h
    · rcases hdev _ h with ⟨b2, hb⟩ | hb
      · exact Event.noConfusion hb
      · exact Event.noConfusion hb

/-- C1 witness: with the begin-upgrade invocation failing, the controller
aborts with the `ActionUpgrade` error, its trace holds no finish
invocation and no finalize gate check. -/
theorem c1_begin_failure_skips_finish_witness :
    (upgradeServiceImage envBeginFail "svcA" "img" 2 0).outcome =
        .aborted (.upgradeError "client.Service.ActionUpgrade" "svcA"
          (.clientError 6)) ∧
      Event.invokeFinish "svcA" ∉
        (upgradeServiceImage envBeginFail "svcA" "img" 2 0).trace ∧
      Event.check "finishupgrade" "svcA" true ∉
        (upgradeServiceImage envBeginFail "svcA" "img" 2 0).trace ∧
      Event.sleepSec 1 ∉
        (upgradeServiceImage envBeginFail "svcA" "img" 2 0).trace :=
  ⟨(c1_begin_failure_skips_finish envBeginFail "svcA" "img" 2 0 2
      (.upgradeError "client.Service.ActionUpgrade" "svcA" (.clientError 6))
      (by decide) (by decide)).1,
   (c1_begin_failure_skips_finish envBeginFail "svcA" "img" 2 0 2
      (.upgradeError "client.Service.ActionUpgrade" "svcA" (.clientError 6))
      (by decide) (by decide)).2.1,
   (c1_begin_failure_skips_finish envBeginFail "svcA" "img" 2 0 2
      (.upgradeError "client.Service.ActionUpgrade" "svcA" (.clientError 6))
      (by decide) (by decide)).2.2.1 true,
   (c1_begin_failure_skips_finish envBeginFail "svcA" "img" 2 0 2
      (.upgradeError "client.Service.ActionUpgrade" "svcA" (.clientError 6))
      (by decide) (by decide)).2.2.2 1⟩

/-- C5: a service name absent from the `SERVICEMAP` snapshot (resolved
identifier is the zero value) makes that service's controller reach
`Aborted` without ever invoking begin-upgrade or finish-upgrade, and the
abort does not prevent the remaining jobs on the worker from being
processed: every remaining job still runs its own precondition gate check
and yields a terminal outcome. -/
theorem c5_unknown_service_aborts_locally (env : Env) (pre tag : String)
    (fuel t : Nat) (s : String) (rest : List String)
    (h : env.serviceMap s = "") :
    (upgradeServiceImage env s (pre ++ s ++ tag) fuel t).outcome =
        .aborted (.actionAvailableError "upgrade" s) ∧
    (∀ ev ∈ (upgradeServicesConcurrent env pre tag fuel (s :: rest) t).trace,
      (∀ sf u, ev ≠ .invokeBegin s sf u) ∧ ev ≠ .invokeFinish s) ∧
    (∀ r ∈ rest, ∃ b, Event.check "upgrade" r b ∈
      (upgradeServicesConcurrent env pre tag fuel (s :: rest) t).trace) ∧
    (upgradeServicesConcurrent env pre tag fuel
        (s :: rest) t).outcomes.length = rest.length + 1 := by
  refine ⟨?_, ?_, ?_, ?_⟩
  · rw [upgradeServiceImage_of_empty env s (pre ++ s ++ tag) fuel t h]
  · intro ev hev
    obtain ⟨r, hr, t0, h0⟩ :=
      worker_trace_from_jobs env pre tag fuel (s :: rest) t ev hev
    by_cases hrs : env.serviceMap r = ""
    · rw [upgradeServiceImage_of_empty env r (pre ++ r ++ tag) fuel t0 hrs]
        at h0
      simp at h0
      subst h0
      exact ⟨fun sf u hc => Event.noConfusion hc,
        fun hc => Event.noConfusion hc⟩
    · rcases upgradeServiceImage_events env r (pre ++ r ++ tag) fuel t0 ev h0
        with ⟨a, b, rfl⟩ | rfl | rfl | rfl
      · exact ⟨fun sf u hc => Event.noConfusion hc,
          fun hc => Event.noConfusion hc⟩
      · exact ⟨fun sf u hc => Event.noConfusion hc,
          fun hc => Event.noConfusion hc⟩
      · refine ⟨fun sf u hc => ?_, fun hc => Event.noConfusion hc⟩
        injection hc with hname _ _
        exact hrs (hname ▸ h)
      · refine ⟨fun sf u hc => Event.noConfusion hc, fun hc => ?_⟩
        injection hc with hname
        exact hrs (hname ▸ h)
  · intro r hr
    exact worker_all_checked env pre tag fuel (s :: rest) t r
      (List.mem_cons_of_mem s hr)
  · rw [worker_outcomes_length]
    simp

/-- C5 witness: in a directory knowing only `svcA`, the unknown service
`svcX` aborts, and the worker still produces a terminal outcome for both
enqueued jobs. -/
theorem c5_unknown_service_aborts_locally_witness :
    (upgradeServiceImage envA "svcX" ("reg/" ++ "svcX" ++ ":v1") 2 0).outcome
        = Outcome.aborted (.actionAvailableError "upgrade" "svcX") ∧
      (upgradeServicesConcurrent envA "reg/" ":v1" 2
        ["svcX", "svcA"] 0).outcomes.length = 2 :=
  ⟨(c5_unknown_service_aborts_locally envA "reg/" ":v1" 2 0 "svcX" ["svcA"]
      (by decide)).1,
   (c5_unknown_service_aborts_locally envA "reg/" ":v1" 2 0 "svcX" ["svcA"]
      (by decide)).2.2.2⟩

/-- C2: the finalize phase calls the gate at least once before
finish-upgrade — the polling loop's trace always opens with a
"finishupgrade" gate check, and when the loop exits its last event is a
gate check that reported available; `doFinishUpgrade` performs the
`ActionFinishupgrade` invocation only when its own opening gate check
reported available; when the gate never reports available the loop never
exits and performs one fixed 1-second sleep per retry, with no bound on
the number of retries (every sleep event of the loop is `sleepSec 1`). -/
theorem c2_poll_gates_finish :
    (∀ (env : Env) (service : String) (fuel t : Nat),
      ∃ b, (pollFinish env service fuel t).trace.head? =
        some (.check "finishupgrade" service b)) ∧
    (∀ (env : Env) (service : String) (fuel t t3 : Nat),
      (pollFinish env service fuel t).exit = some t3 →
        (pollFinish env service fuel t).trace.getLast? =
          some (.check "finishupgrade" service true)) ∧
    (∀ (env : Env) (service : String) (t : Nat),
      Event.invokeFinish service ∈ (doFinishUpgrade env service t).trace →
        (doFinishUpgrade env service t).trace.head? =
          some (.check "finishupgrade" service true)) ∧
    (∀ (env : Env) (service : String) (fuel t : Nat),
      (∀ u, ((actionAvailable env "finishupgrade" service u).1).isSome) →
        (pollFinish env service fuel t).exit = none ∧
          sleepCount (pollFinish env service fuel t).trace = fuel) ∧
    (∀ (env : Env) (service : String) (fuel t n : Nat),
      Event.sleepSec n ∈ (pollFinish env service fuel t).trace → n = 1) := by
  refine ⟨?_, ?_, ?_, ?_, ?_⟩
  · intro env service fuel t
    cases fuel with
    | zero =>
      cases hq : actionAvailable env "finishupgrade" service t with
      | mk g t1 =>
        cases g with
        | none => exact ⟨true, by simp only [pollFinish, hq]; rfl⟩
        | some e => exact ⟨false, by simp only [pollFinish, hq]; rfl⟩
    | succ fuel =>
      cases hq : actionAvailable env "finishupgrade" service t with
      | mk g t1 =>
        cases g with
        | none => exact ⟨true, by simp only [pollFinish, hq]; rfl⟩
        | some e =>
          refine ⟨false, ?_⟩
          simp only [pollFinish, hq]
          cases hp : pollFinish env service fuel t1 with
          | mk r tr => rfl
  · intro env service fuel
    induction fuel with
    | zero =>
      intro t t3 hx
      cases hq : actionAvailable env "finishupgrade" service t with
      | mk g t1 =>
        cases g with
        | none => simp only [pollFinish, hq]; rfl
        | some e =>
          rw [show (pollFinish env service 0 t).exit = none by
            simp only [pollFinish, hq]] at hx
          exact Option.noConfusion hx
    | succ fuel ih =>
      intro t t3 hx
      cases hq : actionAvailable env "finishupgrade" service t with
      | mk g t1 =>
        cases g with
        | none => simp only [pollFinish, hq]; rfl
        | some e =>
          simp only [pollFinish, hq] at hx ⊢
          cases hp : pollFinish env service fuel t1 with
          | mk r tr =>
            rw [hp] at hx
            simp at hx
            have hlast := ih t1 t3 (by rw [hp]; exact hx)
            rw [hp] at hlast
            simp at hlast
            cases tr with
            | nil => simp at hlast
            | cons c tr2 =>
              show (Event.check "finishupgrade" service false ::
                Event.sleepSec 1 :: c :: tr2).getLast? = _
              simp only [List.getLast?_cons_cons]
              exact hlast
  · intro env service t hmem
    rcases doFinishUpgrade_trace_cases env service t with h | h | h <;>
      rw [h] at hmem ⊢
    · simp at hmem
    · simp at hmem
    · rfl
  · intro env service fuel
    induction fuel with
    | zero =>
      intro t hun
      have hq := hun t
      cases ha : actionAvailable env "finishupgrade" service t with
      | mk g t1 =>
        rw [ha] at hq
        cases g with
        | none => simp at hq
        | some e =>
          constructor
          · simp only [pollFinish, ha]
          · simp only [pollFinish, ha, sleepCount]
            rfl
    | succ fuel ih =>
      intro t hun
      have hq := hun t
      cases ha : actionAvailable env "finishupgrade" service t with
      | mk g t1 =>
        rw [ha] at hq
        cases g with
        | none => simp at hq
        | some e =>
          simp only [pollFinish, ha]
          cases hp : pollFinish env service fuel t1 with
          | mk r tr =>
            have hrec := ih t1 hun
            rw [hp] at hrec
            simp only at hrec
            constructor
            · exact hrec.1
            · simp only [sleepCount, List.countP_cons]
              have := hrec.2
              simp only [sleepCount] at this
              rw [this]
              simp
  · intro env service fuel t n hmem
    rcases pollFinish_events env service fuel t _ hmem with ⟨b, hb⟩ | hb
    · exact Event.noConfusion hb
    · injection hb

/-- C2 witness: in a healthy environment the loop trace opens and closes
with a successful gate check and `doFinishUpgrade`'s invocation is headed
by a successful gate check; against an unreachable remote system the loop
never exits and sleeps once per retry. -/
theorem c2_poll_gates_finish_witness :
    (∃ b, (pollFinish envA "svcA" 2 0).trace.head? =
      some (.check "finishupgrade" "svcA" b)) ∧
    (pollFinish envA "svcA" 2 0).trace.getLast? =
        some (.check "finishupgrade" "svcA" true) ∧
    (doFinishUpgrade envA "svcA" 0).trace.head? =
        some (.check "finishupgrade" "svcA" true) ∧
    ((pollFinish envDown "svcA" 3 0).exit = none ∧
      sleepCount (pollFinish envDown "svcA" 3 0).trace = 3) ∧
    (Event.sleepSec 1 ∈ (pollFinish envDown "svcA" 3 0).trace → 1 = 1) := by
  refine ⟨c2_poll_gates_finish.1 envA "svcA" 2 0,
    c2_poll_gates_finish.2.1 envA "svcA" 2 0 2 (by decide),
    c2_poll_gates_finish.2.2.1 envA "svcA" 0 (by decide),
    c2_poll_gates_finish.2.2.2.1 envDown "svcA" 3 0 (fun u => ?_),
    c2_poll_gates_finish.2.2.2.2 envDown "svcA" 3 0 1⟩
  simp [actionAvailable, getNewClient, envDown]

/-- C3: every begin-upgrade invocation a worker performs (i.e. every
transition from Upgrading to AwaitingFinish) carries a payload with the
start-first strategy set and with an `ImageUuid` consisting of the fixed
`docker:` scheme marker followed by the target image reference
`registryPrefix + serviceName + normalizedTag` (the tag normalized by
`init` to begin with a colon). -/
theorem c3_begin_payload (env : Env) (pre rawTag : String)
    (jobs : List String) (fuel t : Nat) (sv u : String) (sf : Bool)
    (hmem : Event.invokeBegin sv sf u ∈
      (upgradeServicesConcurrent env pre (initTag rawTag) fuel
        jobs t).trace) :
    sf = true ∧
      u = "docker:" ++ (pre ++ sv ++ normalizedTag rawTag) := by
  obtain ⟨r, hr, t0, h0⟩ := worker_trace_from_jobs env pre (initTag rawTag)
    fuel jobs t _ hmem
  rcases upgradeServiceImage_events env r (pre ++ r ++ initTag rawTag) fuel
      t0 _ h0 with ⟨a, b, hb⟩ | hb | hb | hb
  · exact Event.noConfusion hb
  · exact Event.noConfusion hb
  · injection hb with hname hsf hu
    subst hname
    exact ⟨hsf, hu⟩
  · exact Event.noConfusion hb

/-- C3 witness: in a healthy environment the single begin-upgrade
invocation for `svcA` carries start-first and the image
`reg.example.com/svcA:v3`. -/
theorem c3_begin_payload_witness :
    true = true ∧
      ("docker:reg.example.com/svcA:v3" : String) =
        "docker:" ++ ("reg.example.com/" ++ "svcA" ++ normalizedTag "v3") :=
  c3_begin_payload envA "reg.example.com/" "v3" ["svcA"] 2 0 "svcA"
    "docker:reg.example.com/svcA:v3" true (by decide)

/-- C4: a finish-upgrade invocation failing against the remote API yields
the error `upgradeError{action="finishupgrade", service, cause}` from
`doFinishUpgrade`, the controller's terminal state is `Aborted` carrying
that error, and `Aborted` is distinguishable from the `Finished` success
state. -/
theorem c4_finish_failure_reported :
    (∀ (env : Env) (sv : String) (t t1 : Nat) (rep : ServiceRep),
      actionAvailable env "finishupgrade" sv t = (none, t1) →
      env.clientOk t1 = true →
      env.byId (t1 + 1) (env.serviceMap sv) = some rep →
      env.finishOk (t1 + 2) = false →
        doFinishUpgrade env sv t =
          ⟨some (.upgradeError "finishupgrade" sv (.clientError (t1 + 2))),
            t1 + 3,
            [.check "finishupgrade" sv true, .invokeFinish sv]⟩) ∧
    (∀ (env : Env) (sv img : String) (fuel t t1 t2 t3 : Nat)
        (ev1 ev2 : Trace) (er : GoError),
      actionAvailable env "upgrade" sv t = (none, t1) →
      doUpgrade env sv img t1 = ⟨none, t2, ev1⟩ →
      pollFinish env sv fuel t2 = ⟨some t3, ev2⟩ →
      (doFinishUpgrade env sv t3).err = some er →
        (upgradeServiceImage env sv img fuel t).outcome = .aborted er) ∧
    (∀ e : GoError, Outcome.aborted e ≠ Outcome.finished) := by
  refine ⟨?_, ?_, fun e h => Outcome.noConfusion h⟩
  · intro env sv t t1 rep hg hc hb hf
    have hne := actionAvailable_none_ne_empty env "finishupgrade" sv t t1 hg
    simp only [doFinishUpgrade, hg, getNewClient, hc, if_true]
    rw [if_neg hne]
    simp only [hb, hf]
    rfl
  · intro env sv img fuel t t1 t2 t3 ev1 ev2 er h1 h2 h3 h4
    rcases hf : doFinishUpgrade env sv t3 with ⟨ferr, t4, ev3⟩
    rw [hf] at h4
    simp at h4
    subst h4
    simp only [upgradeServiceImage, h1, h2, h3, hf]

/-- C4 witness: with `ActionFinishupgrade` failing, `doFinishUpgrade`
returns the wrapped finish-upgrade error, the controller ends `Aborted`
with it, and that outcome differs from `Finished`. -/
theorem c4_finish_failure_reported_witness :
    doFinishUpgrade envFinFail "svcA" 9 =
        ⟨some (.upgradeError "finishupgrade" "svcA" (.clientError 13)), 14,
          [.check "finishupgrade" "svcA" true, .invokeFinish "svcA"]⟩ ∧
      (upgradeServiceImage envFinFail "svcA" "img" 0 0).outcome =
        .aborted (.upgradeError "finishupgrade" "svcA" (.clientError 13)) ∧
      Outcome.aborted
          (.upgradeError "finishupgrade" "svcA" (.clientError 13)) ≠
        Outcome.finished :=
  ⟨c4_finish_failure_reported.1 envFinFail "svcA" 9 11
      ⟨["upgrade", "finishupgrade"]⟩ (by decide) (by decide) (by decide)
      (by decide),
   c4_finish_failure_reported.2.1 envFinFail "svcA" "img" 0 0 2 7 9
      [.check "upgrade" "svcA" true, .invokeBegin "svcA" true "docker:img"]
      [.check "finishupgrade" "svcA" true]
      (.upgradeError "finishupgrade" "svcA" (.clientError 13))
      (by decide) (by decide) (by decide) (by decide),
   c4_finish_failure_reported.2.2
     (.upgradeError "finishupgrade" "svcA" (.clientError 13))⟩

/-! ### Helper lemmas: the dispatcher's job distribution -/

theorem sum_assignedIdx_length (par : Nat) (sched : Nat → Nat)
    (hpar : 0 < par) : ∀ n : Nat,
    (∑ w ∈ Finset.range par, (assignedIdx n par sched w).length) = n := by
  intro n
  induction n with
  | zero => simp [assignedIdx]
  | succ n ih =>
    have hsplit : ∀ w, assignedIdx (n + 1) par sched w =
        assignedIdx n par sched w ++
          if assignW par sched n = w then [n] else [] := by
      intro w
      simp only [assignedIdx, List.range_succ, List.filter_append]
      congr 1
      by_cases hw : assignW par sched n = w
      · simp [List.filter, hw]
      · simp [List.filter, hw]
    have hone : ∀ w : Nat,
        (if assignW par sched n = w then [n] else ([] : List Nat)).length =
          if assignW par sched n = w then 1 else 0 := by
      intro w
      split <;> simp
    calc (∑ w ∈ Finset.range par, (assignedIdx (n + 1) par sched w).length)
        = ∑ w ∈ Finset.range par, ((assignedIdx n par sched w).length +
            (if assignW par sched n = w then [n] else []).length) := by
          simp only [hsplit, List.length_append]
      _ = n + 1 := by
          rw [Finset.sum_add_distrib, ih]
          simp only [hone]
          rw [Finset.sum_ite_eq (Finset.range par) (assignW par sched n)
            (fun _ => 1)]
          have : assignW par sched n ∈ Finset.range par :=
            Finset.mem_range.mpr (Nat.mod_lt _ hpar)
          simp [this]

theorem busy_workers_le_jobs (services : List String) (par : Nat)
    (sched : Nat → Nat) :
    ((Finset.range par).filter
      (fun w => workerJobs services par sched w ≠ [])).card ≤
      services.length := by
  classical
  have key : ∀ w ∈ (Finset.range par).filter
      (fun w => workerJobs services par sched w ≠ []),
      (assignedIdx services.length par sched w).headD 0 <
          services.length ∧
        assignW par sched
          ((assignedIdx services.length par sched w).headD 0) = w := by
    intro w hw
    rw [Finset.mem_filter] at hw
    have hne : assignedIdx services.length par sched w ≠ [] := by
      intro hq
      exact hw.2 (by simp [workerJobs, hq])
    cases hl : assignedIdx services.length par sched w with
    | nil => exact absurd hl hne
    | cons a l2 =>
      have ha : a ∈ assignedIdx services.length par sched w := by
        rw [hl]
        exact List.mem_cons_self a l2
      unfold assignedIdx at ha
      rw [List.mem_filter] at ha
      simp only [List.headD_cons]
      refine ⟨List.mem_range.mp ha.1, ?_⟩
      have := ha.2
      simpa using this
  have h : ((Finset.range par).filter
      (fun w => workerJobs services par sched w ≠ [])).card ≤
      (Finset.range services.length).card := by
    apply Finset.card_le_card_of_injOn
      (fun w => (assignedIdx services.length par sched w).headD 0)
    · intro w hw
      exact Finset.mem_range.mpr (key w hw).1
    · intro w1 h1 w2 h2 heq
      have k1 := (key w1 (Finset.mem_coe.mp h1)).2
      have k2 := (key w2 (Finset.mem_coe.mp h2)).2
      rw [← k1, ← k2]
      exact congrArg (assignW par sched) heq
  simpa using h

/-- C6: the dispatcher builds a queue whose capacity equals the service
count, enqueues one job per service, starts exactly `par` workers (with
the join: the dispatcher's value lists every worker's completed run), each
queue position is pulled by exactly one worker (and the jobs across all
workers add up to exactly the enqueued jobs), at least `par - |S|` workers
pull no job when `par` exceeds the service count, and a worker with no
jobs terminates cleanly with no outcomes and no remote events.  The
schedule `sched` ranges over all interleavings of the workers' pulls. -/
theorem c6_dispatcher_exactly_once (services : List String) (par : Nat)
    (sched : Nat → Nat) (env : Env) (pre tag : String) (fuel : Nat)
    (hpar : 1 ≤ par) :
    serviceChanCap services = services.length ∧
    (upgradeServices env pre tag fuel services par sched).length = par ∧
    (∀ i, i < services.length → ∃! w, w < par ∧
      i ∈ assignedIdx services.length par sched w) ∧
    (∑ w ∈ Finset.range par,
      (workerJobs services par sched w).length) = services.length ∧
    (∀ w, w < par →
      upgradeServicesConcurrent env pre tag fuel
          (workerJobs services par sched w) 0 ∈
        upgradeServices env pre tag fuel services par sched) ∧
    (services.length < par →
      par - services.length ≤
        ((Finset.range par).filter
          (fun w => workerJobs services par sched w = [])).card) ∧
    (∀ t : Nat,
      upgradeServicesConcurrent env pre tag fuel [] t = ⟨t, [], []⟩) := by
  classical
  have hpos : 0 < par := hpar
  refine ⟨rfl, ?_, ?_, ?_, ?_, ?_, fun t => rfl⟩
  · simp [upgradeServices]
  · intro i hi
    refine ⟨assignW par sched i, ⟨Nat.mod_lt _ hpos, ?_⟩, ?_⟩
    · simp only [assignedIdx, List.mem_filter, List.mem_range]
      exact ⟨hi, by simp⟩
    · rintro w ⟨hw, hmem⟩
      simp only [assignedIdx, List.mem_filter, List.mem_range,
        decide_eq_true_eq] at hmem
      exact hmem.2.symm
  · have h := sum_assignedIdx_length par sched hpos services.length
    simp only [workerJobs, List.length_map]
    exact h
  · intro w hw
    simp only [upgradeServices]
    exact List.mem_map.mpr ⟨w, List.mem_range.mpr hw, rfl⟩
  · intro hlt
    have hbusy := busy_workers_le_jobs services par sched
    have htot : ((Finset.range par).filter
          (fun w => workerJobs services par sched w = [])).card +
        ((Finset.range par).filter
          (fun w => ¬ workerJobs services par sched w = [])).card =
        (Finset.range par).card :=
      Finset.filter_card_add_filter_neg_card_eq_card _
    rw [Finset.card_range] at htot
    simp only [ne_eq] at hbusy htot
    omega

/-- C6 witness: three workers over two services under the identity
schedule: capacity 2, three completed worker runs, two jobs distributed in
total, and at least one idle worker. -/
theorem c6_dispatcher_exactly_once_witness :
    serviceChanCap ["a", "b"] = 2 ∧
    (upgradeServices envA "p" ":v" 1 ["a", "b"] 3 (fun i => i)).length = 3 ∧
    (∑ w ∈ Finset.range 3,
      (workerJobs ["a", "b"] 3 (fun i => i) w).length) = 2 ∧
    3 - 2 ≤ ((Finset.range 3).filter
      (fun w => workerJobs ["a", "b"] 3 (fun i => i) w = [])).card ∧
    upgradeServicesConcurrent envA "p" ":v" 1 [] 0 = ⟨0, [], []⟩ :=
  ⟨(c6_dispatcher_exactly_once ["a", "b"] 3 (fun i => i) envA "p" ":v" 1
      (by decide)).1,
   (c6_dispatcher_exactly_once ["a", "b"] 3 (fun i => i) envA "p" ":v" 1
      (by decide)).2.1,
   (c6_dispatcher_exactly_once ["a", "b"] 3 (fun i => i) envA "p" ":v" 1
      (by decide)).2.2.2.1,
   (c6_dispatcher_exactly_once ["a", "b"] 3 (fun i => i) envA "p" ":v" 1
      (by decide)).2.2.2.2.2.1 (by decide),
   (c6_dispatcher_exactly_once ["a", "b"] 3 (fun i => i) envA "p" ":v" 1
      (by decide)).2.2.2.2.2.2 0⟩

end RancherUpgrade
